import Mathlib

/-!
# Verification of `mmapfile` (src/lib.rs)

Shallow embedding of the core of the `mmapfile` crate: a persisted,
memory-mapped, typed fixed-capacity array guarded by a self-describing
header.

Modelling conventions:
* A file's contents is a `List Nat` of byte values (each `< 256` in every
  byte list we construct).  File-system errors (file missing, permission
  denied) are out of scope: the operations take the file's contents
  directly.
* Rust `u64`/`usize` arithmetic (both 64-bit on the target) is modelled on
  `Nat`, with an explicit `% 2 ^ 64` wherever the source performs an
  arithmetic operation whose result could exceed `u64`.
* A Rust `String` is modelled as its list of UTF-8 bytes (all type-name
  strings appearing here are ASCII).
* `panic!` / `.unwrap()` termination is modelled by the `Outcome.panicked`
  constructor; a returned `Ok` value by `Outcome.ok`.
* The external `mmarinus` mapping primitive is out of scope (spec §1): a
  successful mapping of `data_len` bytes at byte offset `offset` of a file
  is the byte window `(contents.drop offset).take data_len`, and a write
  through the shared mapping replaces that window in the file.
-/

/-- `2 ^ 64`: one more than the largest `u64` / `usize` value (64-bit target). -/
def U64 : Nat := 2 ^ 64

/-- `usize::max_value()` on the 64-bit target. -/
def USIZE_MAX : Nat := U64 - 1

/-- The fixed 4-byte magic tag `*b"MMAP"` (ASCII `M M A P`). -/
def MAGIC : List Nat := [77, 77, 65, 80]

/-- bincode `DefaultOptions().with_fixint_encoding()` encoding of a `u64`:
eight little-endian bytes (fixed width). -/
def u64le (n : Nat) : List Nat :=
  [n % 256, n / 256 % 256, n / 256 ^ 2 % 256, n / 256 ^ 3 % 256,
   n / 256 ^ 4 % 256, n / 256 ^ 5 % 256, n / 256 ^ 6 % 256, n / 256 ^ 7 % 256]

/-- Little-endian decoding of a byte list (inverse of `u64le` up to `% U64`). -/
def leDecode (l : List Nat) : Nat :=
  l.foldr (fun b acc => b + 256 * acc) 0

/-- The on-disk header `MmapFileHdr { magic: [u8; 4], typename: String, size: u64 }`.
`typename` is the UTF-8 byte list of the Rust type-name string; `size` is the
record count (a `u64`, so `< U64` for every header the program builds). -/
structure MmapFileHdr where
  magic : List Nat
  typename : List Nat
  size : Nat
deriving DecidableEq, Repr

namespace MmapFileHdr

/-- `MmapFileHdr::new::<T>(size)`: magic `*b"MMAP"`, the type name of `T`,
and the record count (`capacity as u64`). -/
def new (typename : List Nat) (size : Nat) : MmapFileHdr :=
  { magic := MAGIC, typename := typename, size := size % U64 }

/-- bincode fixint serialization of the header (what `serialize_into` writes):
the 4 magic bytes (a fixed-size array, no length prefix), the string as a
fixed-width `u64` byte length followed by its bytes, then the `u64` count. -/
def serialize (h : MmapFileHdr) : List Nat :=
  h.magic ++ u64le h.typename.length ++ h.typename ++ u64le h.size

/-- `MmapFileHdr::serialized_size`: bincode computes the exact byte length of
the encoding (the source computes it by actually encoding, via
`bincode::serialized_size`). -/
def serialized_size (h : MmapFileHdr) : Nat :=
  h.serialize.length

end MmapFileHdr

/-- Read exactly `n` bytes from the front of a stream; `none` when the stream
is truncated.  Returns the bytes read and the rest of the stream. -/
def readBytes : Nat → List Nat → Option (List Nat × List Nat)
  | 0, l => some ([], l)
  | _ + 1, [] => none
  | n + 1, b :: l =>
    match readBytes n l with
    | none => none
    | some (bs, rest) => some (b :: bs, rest)

/-- `MmapFileHdr::deserialize_from` (bincode fixint decoding): reads the 4
magic bytes, an 8-byte little-endian string length, that many string bytes,
then the 8-byte count.  `none` models the bincode `Err` on a truncated
stream.  Trailing bytes are left unread (bincode's `deserialize_from` on a
reader).  The source performs no validation of the magic bytes. -/
def MmapFileHdr.deserialize_from (bytes : List Nat) : Option MmapFileHdr :=
  match readBytes 4 bytes with
  | none => none
  | some (magic, r1) =>
    match readBytes 8 r1 with
    | none => none
    | some (lenb, r2) =>
      match readBytes (leDecode lenb) r2 with
      | none => none
      | some (tn, r3) =>
        match readBytes 8 r3 with
        | none => none
        | some (szb, _) => some ⟨magic, tn, leDecode szb⟩

/-- `const fn page_align(val: u64) -> u64 { ((val + 4095) / 4096) * 4096 }`,
with the `u64` wrap of `val + 4095` explicit (the quotient times 4096 is
again `< 2 ^ 64`, so no further reduction occurs). -/
def page_align (val : Nat) : Nat :=
  (val + 4095) % U64 / 4096 * 4096

/-- `File::set_len(n)`: truncates or extends the file to `n` bytes; the
extension is zero-filled (POSIX `ftruncate` semantics). -/
def setLen (l : List Nat) (n : Nat) : List Nat :=
  l.take n ++ List.replicate (n - l.length) 0

/-- Result of a Rust computation that either returns a value or terminates
the process via `panic!` / `.unwrap()`. -/
inductive Outcome (α : Type) where
  | ok : α → Outcome α
  | panicked : String → Outcome α
deriving DecidableEq, Repr

namespace MmapFile

/-- `MmapFile::<T>::map(file, offset, capacity)`: checks the file length
against `usize::max_value()` and against `data_len + offset` (both checks
`panic!` on failure), then maps `data_len = capacity * size_of::<T>()`
bytes of the file starting at byte `offset` in shared read/write mode.
The `usize` product and the `u64` sum wrap, as in the source; the mmap
syscall itself (out of scope, spec §1) is modelled as succeeding and the
mapped region as the corresponding byte window of the file. -/
def map (contents : List Nat) (offset capacity sizeT : Nat) :
    Outcome (List Nat) :=
  let len := contents.length
  let data_len := capacity * sizeT % U64
  if len > USIZE_MAX then
    Outcome.panicked "file too large"
  else if len < (data_len + offset) % U64 then
    Outcome.panicked "file too small"
  else
    Outcome.ok ((contents.drop offset).take data_len)

/-- `MmapFile::<T>::open(filename)` on a file with the given contents, where
the caller's record type `T` has type name `tn` and `size_of::<T>() = sizeT`:
deserializes the header (`.unwrap()` panics on a decode error), panics on a
type-name mismatch, then maps `hdr.size` records at the page-aligned header
size. -/
def openFile (contents tn : List Nat) (sizeT : Nat) : Outcome (List Nat) :=
  match MmapFileHdr.deserialize_from contents with
  | none => Outcome.panicked "deserialize error"
  | some hdr =>
    if hdr.typename ≠ tn then Outcome.panicked "type mismatch"
    else map contents (page_align hdr.serialized_size) hdr.size sizeT

/-- `MmapFile::<T>::with_capacity(filename, capacity)` for a record type with
type name `tn` and `size_of::<T>() = sizeT`: creates the file, writes the
encoded header at offset 0, extends the file to
`page_align(hdr_len + data_len)` bytes (zero-filled), and maps `capacity`
records at offset `hdr_len = page_align(serialized_size)`.  Returns the
file's resulting contents together with the returned view. -/
def with_capacity (tn : List Nat) (sizeT capacity : Nat) :
    List Nat × Outcome (List Nat) :=
  let hdr := MmapFileHdr.new tn capacity
  let hdr_len := page_align hdr.serialized_size
  let data_len := capacity * sizeT % U64
  let contents := setLen hdr.serialize (page_align ((hdr_len + data_len) % U64))
  (contents, map contents hdr_len capacity sizeT)

/-- `MmapFile::size`: the byte size of the mapped region (`self.map.size()`,
the `data_len` the region was created with). -/
def size (view : List Nat) : Nat :=
  view.length

/-- Writing the byte pattern `p` through `as_slice_mut()` of a view mapped at
byte `offset` of the file: the mapping is shared, so the bytes replace the
corresponding window of the file. -/
def write_view (contents : List Nat) (offset : Nat) (p : List Nat) : List Nat :=
  contents.take offset ++ p ++ contents.drop (offset + p.length)

end MmapFile

/-- `bytemuck::cast_slice::<u8, T>` on the mapped bytes, for
`size_of::<T>() = sizeT`: reinterprets the byte list as a list of records of
`sizeT` bytes each (memory layout itself is out of scope; a record is its
byte list). -/
def castSlice (sizeT : Nat) : List Nat → List (List Nat)
  | [] => []
  | b :: rest =>
    if _h : sizeT = 0 then []
    else (b :: rest).take sizeT :: castSlice sizeT ((b :: rest).drop sizeT)
termination_by l => l.length
decreasing_by
  simp only [List.length_drop, List.length_cons]
  omega

/-- The bounds under which the program's `u64`/`usize` arithmetic cannot wrap
for a creation with type name `tn`, record size `sizeT`, and capacity
`capacity` (every real Rust invocation that does not overflow satisfies
them: type names are far shorter than `2 ^ 63` bytes and the file length
fits in `u64`). -/
abbrev inBounds (tn : List Nat) (sizeT capacity : Nat) : Prop :=
  20 + tn.length + 4095 < U64 ∧ capacity < U64 ∧ capacity * sizeT < U64 ∧
    page_align (20 + tn.length) + capacity * sizeT + 4095 < U64

/-! ## Basic facts about the encoding -/

theorem u64le_length (n : Nat) : (u64le n).length = 8 := rfl

theorem leDecode_u64le (n : Nat) : leDecode (u64le n) = n % U64 := by
  simp only [leDecode, u64le, List.foldr, U64]
  norm_num
  omega

theorem readBytes_append (l r : List Nat) :
    readBytes l.length (l ++ r) = some (l, r) := by
  induction l with
  | nil => rfl
  | cons b t ih => simp [readBytes, ih]

theorem serialize_length (h : MmapFileHdr) (hm : h.magic.length = 4) :
    h.serialize.length = 20 + h.typename.length := by
  simp [MmapFileHdr.serialize, u64le_length, hm]
  omega

theorem serialized_size_eq (h : MmapFileHdr) (hm : h.magic.length = 4) :
    h.serialized_size = 20 + h.typename.length :=
  serialize_length h hm

/-- Decoding is inverse to encoding: deserializing a stream that starts with
the encoding of a header recovers that header, the trailing bytes being left
unread. -/
theorem deserialize_serialize (h : MmapFileHdr) (rest : List Nat)
    (hm : h.magic.length = 4) (htn : h.typename.length < U64)
    (hsz : h.size < U64) :
    MmapFileHdr.deserialize_from (h.serialize ++ rest) = some h := by
  obtain ⟨mg, tn, sz⟩ := h
  simp only at hm htn hsz
  unfold MmapFileHdr.deserialize_from MmapFileHdr.serialize
  simp only [List.append_assoc]
  have e1 : readBytes 4 (mg ++ (u64le tn.length ++ (tn ++ (u64le sz ++ rest))))
      = some (mg, u64le tn.length ++ (tn ++ (u64le sz ++ rest))) := by
    rw [← hm]; exact readBytes_append _ _
  have e2 : readBytes 8 (u64le tn.length ++ (tn ++ (u64le sz ++ rest)))
      = some (u64le tn.length, tn ++ (u64le sz ++ rest)) := by
    rw [← u64le_length tn.length]; exact readBytes_append _ _
  have e3 : readBytes 8 (u64le sz ++ rest) = some (u64le sz, rest) := by
    rw [← u64le_length sz]; exact readBytes_append _ _
  simp only [e1]
  simp only [e2, leDecode_u64le, Nat.mod_eq_of_lt htn]
  simp only [readBytes_append]
  simp only [e3, leDecode_u64le, Nat.mod_eq_of_lt hsz]

/-! ## Facts about `page_align` -/

theorem page_align_eq (v : Nat) (hv : v + 4095 < U64) :
    page_align v = (v + 4095) / 4096 * 4096 := by
  unfold page_align
  rw [Nat.mod_eq_of_lt hv]

theorem le_page_align (v : Nat) (hv : v + 4095 < U64) : v ≤ page_align v := by
  rw [page_align_eq v hv]
  omega

theorem page_align_le (v : Nat) (hv : v + 4095 < U64) :
    page_align v ≤ v + 4095 := by
  rw [page_align_eq v hv]
  omega

theorem page_align_mod (v : Nat) : page_align v % 4096 = 0 := by
  unfold page_align
  simp [Nat.mul_mod_left]

/-! ## Facts about `setLen` and `castSlice` -/

theorem setLen_length (l : List Nat) (n : Nat) : (setLen l n).length = n := by
  simp [setLen]
  omega

theorem setLen_of_le (l : List Nat) (n : Nat) (h : l.length ≤ n) :
    setLen l n = l ++ List.replicate (n - l.length) 0 := by
  simp [setLen, List.take_of_length_le h]

theorem castSlice_cons_eq (s : Nat) (l : List Nat) (hs : 0 < s)
    (hl : l ≠ []) :
    castSlice s l = l.take s :: castSlice s (l.drop s) := by
  cases l with
  | nil => exact absurd rfl hl
  | cons b rest =>
    rw [castSlice]
    simp [Nat.pos_iff_ne_zero.mp hs]

theorem castSlice_replicate (s c : Nat) (hs : 0 < s) :
    castSlice s (List.replicate (c * s) 0)
      = List.replicate c (List.replicate s 0) := by
  induction c with
  | zero => simp [castSlice]
  | succ k ih =>
    have hmul : (k + 1) * s = s + k * s := by ring
    rw [hmul, List.replicate_add]
    have hne : List.replicate s (0 : Nat) ++ List.replicate (k * s) 0 ≠ [] := by
      have hlen : (List.replicate s (0 : Nat)
          ++ List.replicate (k * s) 0).length = s + k * s := by
        simp
      intro hc
      rw [hc] at hlen
      simp at hlen
      omega
    rw [castSlice_cons_eq s _ hs hne]
    rw [List.take_append_eq_append_take, List.drop_append_eq_append_drop]
    simp only [List.length_replicate]
    rw [List.take_replicate, List.drop_replicate]
    simp only [Nat.min_self, Nat.sub_self, List.take_zero, List.drop_zero,
      List.append_nil, List.take_zero]
    simp only [List.drop_replicate, Nat.sub_self, List.replicate_zero,
      List.nil_append]
    rw [ih]
    rfl

theorem castSlice_length (s c : Nat) (hs : 0 < s) :
    (castSlice s (List.replicate (c * s) 0)).length = c := by
  rw [castSlice_replicate s c hs, List.length_replicate]

/-! ## Behaviour of `map`, `with_capacity` and `open` -/

/-- When the two guard checks in `MmapFile::map` pass, the result is the byte
window of the file at `offset`. -/
theorem map_eq_ok (contents : List Nat) (offset capacity sizeT : Nat)
    (hmul : capacity * sizeT < U64)
    (hlen : contents.length ≤ USIZE_MAX)
    (hfit : capacity * sizeT + offset < U64)
    (hge : capacity * sizeT + offset ≤ contents.length) :
    MmapFile.map contents offset capacity sizeT
      = Outcome.ok ((contents.drop offset).take (capacity * sizeT)) := by
  simp only [MmapFile.map]
  rw [Nat.mod_eq_of_lt hmul, Nat.mod_eq_of_lt hfit]
  rw [if_neg (by omega), if_neg (by omega)]

/-- The byte window at `offset` of a file that is an encoded prefix followed
by zero padding is all zeros once the window starts past the prefix. -/
theorem drop_take_append_replicate (ser : List Nat) (Z offset dlen : Nat)
    (h1 : ser.length ≤ offset) (h2 : offset + dlen ≤ ser.length + Z) :
    ((ser ++ List.replicate Z (0 : Nat)).drop offset).take dlen
      = List.replicate dlen 0 := by
  rw [List.drop_append_eq_append_drop, List.drop_of_length_le h1,
    List.nil_append, List.drop_replicate, List.take_replicate]
  congr 1
  omega

/-- The file contents produced by `with_capacity`: the encoded header at
offset 0, followed by zeros up to the page-aligned total length. -/
theorem with_capacity_contents (tn : List Nat) (sizeT capacity : Nat)
    (hb : inBounds tn sizeT capacity) :
    (MmapFile.with_capacity tn sizeT capacity).1
      = (MmapFileHdr.new tn capacity).serialize
        ++ List.replicate
            (page_align (page_align (20 + tn.length) + capacity * sizeT)
              - (20 + tn.length)) 0 := by
  obtain ⟨htn, hcapU, hmul, hsum⟩ := hb
  have hssz : (MmapFileHdr.new tn capacity).serialized_size
      = 20 + tn.length := serialized_size_eq _ rfl
  have hser_len : (MmapFileHdr.new tn capacity).serialize.length
      = 20 + tn.length := serialize_length _ rfl
  have hDm : capacity * sizeT % U64 = capacity * sizeT := Nat.mod_eq_of_lt hmul
  have hA_le : 20 + tn.length ≤ page_align (20 + tn.length) :=
    le_page_align _ htn
  have hADm : (page_align (20 + tn.length) + capacity * sizeT) % U64
      = page_align (20 + tn.length) + capacity * sizeT :=
    Nat.mod_eq_of_lt (by omega)
  have hT_le : page_align (20 + tn.length) + capacity * sizeT
      ≤ page_align (page_align (20 + tn.length) + capacity * sizeT) :=
    le_page_align _ (by omega)
  show setLen (MmapFileHdr.new tn capacity).serialize
      (page_align ((page_align (MmapFileHdr.new tn capacity).serialized_size
        + capacity * sizeT % U64) % U64)) = _
  rw [hssz, hDm, hADm]
  rw [setLen_of_le _ _ (by rw [hser_len]; omega)]
  rw [hser_len]

theorem drop_take_exact (B p r : List Nat) :
    ((B ++ (p ++ r)).drop B.length).take p.length = p := by
  rw [List.drop_left, List.take_left]

/-- Opening any file whose bytes are the encoded header, then padding up to
the page-aligned data offset, then a data pattern `p` of exactly
`record_count * sizeT` bytes, then a tail, returns exactly `p`. -/
theorem open_shaped_eq (hdr : MmapFileHdr) (mid p r tn : List Nat)
    (sizeT : Nat)
    (hm : hdr.magic.length = 4) (htn : hdr.typename = tn)
    (htnlen : tn.length < U64) (hszU : hdr.size < U64)
    (hoff : page_align hdr.serialized_size = hdr.serialize.length + mid.length)
    (hp : p.length = hdr.size * sizeT)
    (hmul : hdr.size * sizeT < U64)
    (hfit : hdr.size * sizeT + page_align hdr.serialized_size < U64)
    (hlen : hdr.serialize.length + mid.length + p.length + r.length
      ≤ USIZE_MAX) :
    MmapFile.openFile (hdr.serialize ++ (mid ++ (p ++ r))) tn sizeT
      = Outcome.ok p := by
  have hdeser : MmapFileHdr.deserialize_from
      (hdr.serialize ++ (mid ++ (p ++ r))) = some hdr :=
    deserialize_serialize _ _ hm (by rw [htn]; exact htnlen) hszU
  simp only [MmapFile.openFile, hdeser, htn, ne_eq, not_true_eq_false,
    if_false]
  have hlen' : (hdr.serialize ++ (mid ++ (p ++ r))).length
      = hdr.serialize.length + mid.length + p.length + r.length := by
    simp
    omega
  rw [map_eq_ok _ _ _ _ hmul (by omega) hfit (by omega)]
  have hBlen : (hdr.serialize ++ mid).length
      = hdr.serialize.length + mid.length := by simp
  rw [hoff, ← hBlen, ← hp]
  rw [show hdr.serialize ++ (mid ++ (p ++ r))
      = (hdr.serialize ++ mid) ++ (p ++ r) from
    (List.append_assoc hdr.serialize mid (p ++ r)).symm]
  rw [drop_take_exact (hdr.serialize ++ mid) p r]

/-- Writing a byte pattern `p` through the view's shared mapping and then
reopening the file with the same record type reads back exactly `p`. -/
theorem open_writeView_eq (tn : List Nat) (sizeT capacity : Nat)
    (p : List Nat) (hb : inBounds tn sizeT capacity)
    (hp : p.length = capacity * sizeT) :
    MmapFile.openFile
      (MmapFile.write_view (MmapFile.with_capacity tn sizeT capacity).1
        (page_align (MmapFileHdr.new tn capacity).serialized_size) p)
      tn sizeT
      = Outcome.ok p := by
  obtain ⟨htn, hcapU, hmul, hsum⟩ := hb
  have hUM : USIZE_MAX + 1 = U64 := by norm_num [USIZE_MAX, U64]
  have hssz : (MmapFileHdr.new tn capacity).serialized_size
      = 20 + tn.length := serialized_size_eq _ rfl
  have hser_len : (MmapFileHdr.new tn capacity).serialize.length
      = 20 + tn.length := serialize_length _ rfl
  have hA_le : 20 + tn.length ≤ page_align (20 + tn.length) :=
    le_page_align _ htn
  have hA_ub : page_align (20 + tn.length) ≤ 20 + tn.length + 4095 :=
    page_align_le _ htn
  have hT_le : page_align (20 + tn.length) + capacity * sizeT
      ≤ page_align (page_align (20 + tn.length) + capacity * sizeT) :=
    le_page_align _ (by omega)
  have hT_ub : page_align (page_align (20 + tn.length) + capacity * sizeT)
      ≤ page_align (20 + tn.length) + capacity * sizeT + 4095 :=
    page_align_le _ (by omega)
  have hcontents := with_capacity_contents tn sizeT capacity
    ⟨htn, hcapU, hmul, hsum⟩
  have hsize : (MmapFileHdr.new tn capacity).size = capacity := by
    simp [MmapFileHdr.new, Nat.mod_eq_of_lt hcapU]
  have hwritten : MmapFile.write_view
      (MmapFile.with_capacity tn sizeT capacity).1
      (page_align (MmapFileHdr.new tn capacity).serialized_size) p
      = (MmapFileHdr.new tn capacity).serialize
        ++ (List.replicate (page_align (20 + tn.length) - (20 + tn.length)) 0
          ++ (p ++ List.replicate
              (page_align (page_align (20 + tn.length) + capacity * sizeT)
                - page_align (20 + tn.length) - capacity * sizeT) 0)) := by
    unfold MmapFile.write_view
    rw [hcontents, hssz, hp]
    rw [List.take_append_eq_append_take, List.drop_append_eq_append_drop]
    rw [List.take_of_length_le (by rw [hser_len]; exact hA_le)]
    rw [List.drop_of_length_le (by rw [hser_len]; omega)]
    rw [List.nil_append, List.take_replicate, List.drop_replicate, hser_len]
    simp only [List.append_assoc]
    congr 1
    congr 1
    · exact congrArg (fun n => List.replicate n (0 : Nat))
        (by rw [inf_eq_min]; omega)
    · exact congrArg (fun l => p ++ l)
        (congrArg (fun n => List.replicate n (0 : Nat)) (by omega))
  rw [hwritten]
  have hoff : page_align (MmapFileHdr.new tn capacity).serialized_size
      = (MmapFileHdr.new tn capacity).serialize.length
        + (List.replicate (page_align (20 + tn.length) - (20 + tn.length))
            (0 : Nat)).length := by
    rw [hssz, hser_len, List.length_replicate]
    omega
  have hlen : (MmapFileHdr.new tn capacity).serialize.length
      + (List.replicate (page_align (20 + tn.length) - (20 + tn.length))
          (0 : Nat)).length
      + p.length
      + (List.replicate
          (page_align (page_align (20 + tn.length) + capacity * sizeT)
            - page_align (20 + tn.length) - capacity * sizeT)
          (0 : Nat)).length ≤ USIZE_MAX := by
    rw [hser_len, List.length_replicate, List.length_replicate, hp]
    omega
  exact open_shaped_eq (MmapFileHdr.new tn capacity) _ p _ tn sizeT rfl rfl
    (by omega)
    (by rw [hsize]; omega)
    hoff
    (by rw [hsize]; exact hp)
    (by rw [hsize]; exact hmul)
    (by rw [hsize, hssz]; omega)
    hlen

/-- Opening the file produced by `with_capacity` with the same record type
succeeds and returns the all-zero data window of `capacity * sizeT` bytes. -/
theorem open_withCapacity_eq (tn : List Nat) (sizeT capacity : Nat)
    (hb : inBounds tn sizeT capacity) :
    MmapFile.openFile (MmapFile.with_capacity tn sizeT capacity).1 tn sizeT
      = Outcome.ok (List.replicate (capacity * sizeT) 0) := by
  obtain ⟨htn, hcapU, hmul, hsum⟩ := hb
  have hUM : USIZE_MAX + 1 = U64 := by norm_num [USIZE_MAX, U64]
  have hcontents := with_capacity_contents tn sizeT capacity ⟨htn, hcapU, hmul, hsum⟩
  have hssz : (MmapFileHdr.new tn capacity).serialized_size
      = 20 + tn.length := serialized_size_eq _ rfl
  have hser_len : (MmapFileHdr.new tn capacity).serialize.length
      = 20 + tn.length := serialize_length _ rfl
  have hA_le : 20 + tn.length ≤ page_align (20 + tn.length) :=
    le_page_align _ htn
  have hT_le : page_align (20 + tn.length) + capacity * sizeT
      ≤ page_align (page_align (20 + tn.length) + capacity * sizeT) := by
    rw [show page_align (page_align (20 + tn.length) + capacity * sizeT)
        = page_align ((page_align (20 + tn.length) + capacity * sizeT) % U64) by
      rw [Nat.mod_eq_of_lt (by omega)]]
    rw [Nat.mod_eq_of_lt (by omega : page_align (20 + tn.length) + capacity * sizeT < U64)]
    exact le_page_align _ (by omega)
  have hT_ub : page_align (page_align (20 + tn.length) + capacity * sizeT)
      ≤ page_align (20 + tn.length) + capacity * sizeT + 4095 :=
    page_align_le _ (by omega)
  have hdeser : MmapFileHdr.deserialize_from
      (MmapFile.with_capacity tn sizeT capacity).1
      = some (MmapFileHdr.new tn capacity) := by
    rw [hcontents]
    exact deserialize_serialize _ _ rfl
      (show tn.length < U64 by omega)
      (show capacity % U64 < U64 from Nat.mod_lt capacity (by norm_num [U64]))
  have hsize : (MmapFileHdr.new tn capacity).size = capacity := by
    simp [MmapFileHdr.new, Nat.mod_eq_of_lt hcapU]
  have htyp : (MmapFileHdr.new tn capacity).typename = tn := rfl
  simp only [MmapFile.openFile, hdeser, hssz, hsize, htyp, ne_eq,
    not_true_eq_false, if_false]
  rw [hcontents]
  rw [map_eq_ok _ _ _ _ hmul
    (by simp [hser_len]; omega)
    (by omega)
    (by simp [hser_len]; omega)]
  exact congrArg Outcome.ok
    (drop_take_append_replicate _ _ _ _ (by rw [hser_len]; exact hA_le)
      (by rw [hser_len]; omega))

/-- The byte length of the file created by `with_capacity` is what the
`set_len` call sets it to. -/
theorem with_capacity_length (tn : List Nat) (sizeT capacity : Nat) :
    (MmapFile.with_capacity tn sizeT capacity).1.length
      = page_align ((page_align (MmapFileHdr.new tn capacity).serialized_size
          + capacity * sizeT % U64) % U64) := by
  show (setLen _ _).length = _
  exact setLen_length _ _

/-- The view returned directly by `with_capacity` (without reopening) is the
all-zero data window. -/
theorem withCapacity_view_eq (tn : List Nat) (sizeT capacity : Nat)
    (hb : inBounds tn sizeT capacity) :
    (MmapFile.with_capacity tn sizeT capacity).2
      = Outcome.ok (List.replicate (capacity * sizeT) 0) := by
  obtain ⟨htn, hcapU, hmul, hsum⟩ := hb
  have hUM : USIZE_MAX + 1 = U64 := by norm_num [USIZE_MAX, U64]
  have hssz : (MmapFileHdr.new tn capacity).serialized_size
      = 20 + tn.length := serialized_size_eq _ rfl
  have hser_len : (MmapFileHdr.new tn capacity).serialize.length
      = 20 + tn.length := serialize_length _ rfl
  have hA_le : 20 + tn.length ≤ page_align (20 + tn.length) :=
    le_page_align _ htn
  have hT_le : page_align (20 + tn.length) + capacity * sizeT
      ≤ page_align (page_align (20 + tn.length) + capacity * sizeT) :=
    le_page_align _ (by omega)
  have hT_ub : page_align (page_align (20 + tn.length) + capacity * sizeT)
      ≤ page_align (20 + tn.length) + capacity * sizeT + 4095 :=
    page_align_le _ (by omega)
  have hcontents := with_capacity_contents tn sizeT capacity
    ⟨htn, hcapU, hmul, hsum⟩
  show MmapFile.map (MmapFile.with_capacity tn sizeT capacity).1
      (page_align (MmapFileHdr.new tn capacity).serialized_size)
      capacity sizeT = _
  rw [hssz, hcontents]
  rw [map_eq_ok _ _ _ _ hmul
    (by simp [hser_len]; omega)
    (by omega)
    (by simp [hser_len]; omega)]
  exact congrArg Outcome.ok
    (drop_take_append_replicate _ _ _ _ (by rw [hser_len]; exact hA_le)
      (by rw [hser_len]; omega))

/-! ## The claims -/

/-- Claim C1: for every POD record type (type name `tn`, record size
`sizeT > 0`) and every capacity, `create_with_capacity` followed by `open`
with the same record type yields a view of exactly `capacity` records whose
bytes are all zero.  The `inBounds` hypothesis is the no-overflow side
condition of the 64-bit arithmetic. -/
theorem C1_create_open_zeroed (tn : List Nat) (sizeT capacity : Nat)
    (hs : 0 < sizeT) (hb : inBounds tn sizeT capacity) :
    MmapFile.openFile (MmapFile.with_capacity tn sizeT capacity).1 tn sizeT
      = Outcome.ok (List.replicate (capacity * sizeT) 0)
    ∧ (castSlice sizeT (List.replicate (capacity * sizeT) 0)).length
      = capacity
    ∧ ∀ r ∈ castSlice sizeT (List.replicate (capacity * sizeT) 0),
        r = List.replicate sizeT 0 := by
  refine ⟨open_withCapacity_eq tn sizeT capacity hb,
    castSlice_length _ _ hs, ?_⟩
  intro r hr
  rw [castSlice_replicate _ _ hs] at hr
  exact List.eq_of_mem_replicate hr

/-- Claim C1, witness: type `u8` (type name bytes `[117, 56]`, record size
1), capacity 4096, as in the crate's `as_slice` test. -/
theorem C1_witness :
    MmapFile.openFile (MmapFile.with_capacity [117, 56] 1 4096).1
      [117, 56] 1
      = Outcome.ok (List.replicate (4096 * 1) 0)
    ∧ (castSlice 1 (List.replicate (4096 * 1) 0)).length = 4096
    ∧ ∀ r ∈ castSlice 1 (List.replicate (4096 * 1) 0),
        r = List.replicate 1 0 :=
  C1_create_open_zeroed [117, 56] 1 4096 (by decide) (by decide)

/-- Claim C2: any byte pattern written into the records through
`as_slice_mut()` is read back identical through `as_slice()` after the file
is reopened with `open` (the mapping is shared, so the written bytes are the
file's data region). -/
theorem C2_roundtrip (tn : List Nat) (sizeT capacity : Nat) (p : List Nat)
    (hb : inBounds tn sizeT capacity) (hp : p.length = capacity * sizeT) :
    MmapFile.openFile
      (MmapFile.write_view (MmapFile.with_capacity tn sizeT capacity).1
        (page_align (MmapFileHdr.new tn capacity).serialized_size) p)
      tn sizeT
      = Outcome.ok p :=
  open_writeView_eq tn sizeT capacity p hb hp

/-- Claim C2, witness: two `u8` records, pattern `[7, 9]`. -/
theorem C2_witness :
    MmapFile.openFile
      (MmapFile.write_view (MmapFile.with_capacity [117, 56] 1 2).1
        (page_align (MmapFileHdr.new [117, 56] 2).serialized_size) [7, 9])
      [117, 56] 1
      = Outcome.ok [7, 9] :=
  C2_roundtrip [117, 56] 1 2 [7, 9] (by decide) (by decide)

/-- Claim C3 (code bug): opening a file created for type `u8` while
requesting type `u16` does not return a recoverable `TypeMismatchError`;
the source executes `panic!("type mismatch")`, terminating the process. -/
theorem C3_type_mismatch_terminates :
    MmapFile.openFile (MmapFile.with_capacity [117, 56] 1 1).1
      [117, 49, 54] 2
      = Outcome.panicked "type mismatch" := by
  rfl

/-- Claim C4 (code bug): a header stream whose 4-byte magic tag is `XXXX`
(bytes `[88, 88, 88, 88]`) instead of `MMAP` is decoded successfully —
`deserialize_from` returns a header whose magic differs from the constant,
instead of failing with a format error; no code path checks the magic. -/
theorem C4_bad_magic_accepted :
    MmapFileHdr.deserialize_from
        ([88, 88, 88, 88] ++ u64le 2 ++ [117, 56] ++ u64le 1)
      = some ⟨[88, 88, 88, 88], [117, 56], 1⟩
    ∧ [88, 88, 88, 88] ≠ MAGIC :=
  ⟨rfl, by decide⟩

/-- Claim C5: the header's encoded byte length does not depend on the
numeric value of `record_count`; in particular counts 1, 12345 and `2 ^ 32`
for type name `u8` all encode to 22 bytes (the crate's own
`mmapfilehdr_basic` test values). -/
theorem C5_encoded_length_count_independent :
    (∀ (tn : List Nat) (a b : Nat),
      (MmapFileHdr.new tn a).serialized_size
        = (MmapFileHdr.new tn b).serialized_size)
    ∧ (MmapFileHdr.new [117, 56] 1).serialized_size = 22
    ∧ (MmapFileHdr.new [117, 56] 12345).serialized_size = 22
    ∧ (MmapFileHdr.new [117, 56] (2 ^ 32)).serialized_size = 22 := by
  refine ⟨fun tn a b => ?_, rfl, rfl, rfl⟩
  rw [serialized_size_eq (MmapFileHdr.new tn a) rfl,
    serialized_size_eq (MmapFileHdr.new tn b) rfl]
  rfl

/-- Claim C6: for every header (whatever the length of its type-identity
string, as long as the `u64` arithmetic cannot wrap — true of every header a
Rust `String` can produce), the data region's offset `page_align
(serialized_size)` is an exact multiple of the page size 4096, is at least
the encoded size, and is exactly the encoded size rounded up to 4096. -/
theorem C6_data_offset_page_aligned (h : MmapFileHdr)
    (hb : h.serialized_size + 4095 < U64) :
    page_align h.serialized_size % 4096 = 0
    ∧ h.serialized_size ≤ page_align h.serialized_size
    ∧ page_align h.serialized_size
      = (h.serialized_size + 4095) / 4096 * 4096 :=
  ⟨page_align_mod _, le_page_align _ hb, page_align_eq _ hb⟩

/-- Claim C6, witness: the header for one `u8` record. -/
theorem C6_witness :
    page_align (MmapFileHdr.new [117, 56] 1).serialized_size % 4096 = 0
    ∧ (MmapFileHdr.new [117, 56] 1).serialized_size
      ≤ page_align (MmapFileHdr.new [117, 56] 1).serialized_size
    ∧ page_align (MmapFileHdr.new [117, 56] 1).serialized_size
      = ((MmapFileHdr.new [117, 56] 1).serialized_size + 4095)
        / 4096 * 4096 :=
  C6_data_offset_page_aligned _ (by decide)

/-- Claim C7, counterexample: for type `u16` (record size 2) and capacity 3,
the view's `size()` is 6 — the mapped byte length — while the header's
record count is 3, so `size()` does not return the record count for every
record type. -/
theorem C7_counterexample :
    MmapFile.openFile (MmapFile.with_capacity [117, 49, 54] 2 3).1
      [117, 49, 54] 2
      = Outcome.ok (List.replicate (3 * 2) 0)
    ∧ MmapFile.size (List.replicate (3 * 2) 0) = 6
    ∧ (MmapFileHdr.new [117, 49, 54] 3).size = 3
    ∧ (6 : Nat) ≠ 3 :=
  ⟨open_withCapacity_eq [117, 49, 54] 2 3 (by decide), rfl, rfl, by decide⟩

/-- Claim C7 as amended: `size()` returns the byte length of the mapped
region, `record_count * size_of::<T>()` — it equals the record count only
when `size_of::<T>() = 1`; the record count is instead the length of the
slice the view dereferences to. -/
theorem C7_size_is_byte_length (tn : List Nat) (sizeT capacity : Nat)
    (hs : 0 < sizeT) (hb : inBounds tn sizeT capacity) :
    MmapFile.openFile (MmapFile.with_capacity tn sizeT capacity).1 tn sizeT
      = Outcome.ok (List.replicate (capacity * sizeT) 0)
    ∧ MmapFile.size (List.replicate (capacity * sizeT) 0)
      = capacity * sizeT
    ∧ (castSlice sizeT (List.replicate (capacity * sizeT) 0)).length
      = capacity :=
  ⟨open_withCapacity_eq tn sizeT capacity hb,
    by simp [MmapFile.size], castSlice_length _ _ hs⟩

/-- Claim C7 (amended), witness: type `u16`, capacity 3. -/
theorem C7_witness :
    MmapFile.openFile (MmapFile.with_capacity [117, 49, 54] 2 3).1
      [117, 49, 54] 2
      = Outcome.ok (List.replicate (3 * 2) 0)
    ∧ MmapFile.size (List.replicate (3 * 2) 0) = 3 * 2
    ∧ (castSlice 2 (List.replicate (3 * 2) 0)).length = 3 :=
  C7_size_is_byte_length [117, 49, 54] 2 3 (by decide) (by decide)

/-- Claim C8: for every capacity — the interesting case being one that is
not a multiple of the page size — the logical slice exposed by the view has
exactly `capacity` elements, even though the underlying file's byte length
is padded to a page boundary (a multiple of 4096). -/
theorem C8_no_padding_leak (tn : List Nat) (sizeT capacity : Nat)
    (hs : 0 < sizeT) (hb : inBounds tn sizeT capacity) :
    MmapFile.openFile (MmapFile.with_capacity tn sizeT capacity).1 tn sizeT
      = Outcome.ok (List.replicate (capacity * sizeT) 0)
    ∧ (castSlice sizeT (List.replicate (capacity * sizeT) 0)).length
      = capacity
    ∧ (MmapFile.with_capacity tn sizeT capacity).1.length % 4096 = 0 := by
  refine ⟨open_withCapacity_eq tn sizeT capacity hb,
    castSlice_length _ _ hs, ?_⟩
  rw [with_capacity_length]
  exact page_align_mod _

/-- Claim C8, witness: 4000 one-byte records — the spec's unaligned example
(and the crate's `as_slice_mut_unaligned` test). -/
theorem C8_witness :
    MmapFile.openFile (MmapFile.with_capacity [117, 56] 1 4000).1
      [117, 56] 1
      = Outcome.ok (List.replicate (4000 * 1) 0)
    ∧ (castSlice 1 (List.replicate (4000 * 1) 0)).length = 4000
    ∧ (MmapFile.with_capacity [117, 56] 1 4000).1.length % 4096 = 0 :=
  C8_no_padding_leak [117, 56] 1 4000 (by decide) (by decide)

/-- Claim C9, counterexample: for 4000 `u8` records the data offset is 4096
and `data_offset + capacity * record_size = 8096`, but `with_capacity`
resizes the file to `page_align(8096) = 8192` bytes, not exactly 8096. -/
theorem C9_counterexample :
    (MmapFile.with_capacity [117, 56] 1 4000).1.length = 8192
    ∧ page_align (MmapFileHdr.new [117, 56] 4000).serialized_size
      + 4000 * 1 = 8096
    ∧ (8192 : Nat) ≠ 8096 := by
  refine ⟨?_, by decide, by decide⟩
  rw [with_capacity_length]
  decide

/-- Claim C9 as amended: `with_capacity` writes the encoded header at file
offset 0 and resizes the file to `page_align(data_offset + capacity *
record_size)` — the total is additionally rounded up to the next page
boundary, where `data_offset = page_align(serialized_size)`. -/
theorem C9_create_layout (tn : List Nat) (sizeT capacity : Nat)
    (hb : inBounds tn sizeT capacity) :
    (MmapFile.with_capacity tn sizeT capacity).1.take
        (MmapFileHdr.new tn capacity).serialized_size
      = (MmapFileHdr.new tn capacity).serialize
    ∧ (MmapFile.with_capacity tn sizeT capacity).1.length
      = page_align
          (page_align (MmapFileHdr.new tn capacity).serialized_size
            + capacity * sizeT) := by
  obtain ⟨htn, hcapU, hmul, hsum⟩ := hb
  have hssz : (MmapFileHdr.new tn capacity).serialized_size
      = 20 + tn.length := serialized_size_eq _ rfl
  have hcontents := with_capacity_contents tn sizeT capacity
    ⟨htn, hcapU, hmul, hsum⟩
  constructor
  · rw [hcontents]
    simp only [MmapFileHdr.serialized_size]
    exact List.take_left _ _
  · rw [with_capacity_length, hssz,
      Nat.mod_eq_of_lt hmul,
      Nat.mod_eq_of_lt (show page_align (20 + tn.length)
        + capacity * sizeT < U64 by omega)]

/-- Claim C9 (amended), witness: 4000 `u8` records; the header is at offset
0 and the file length is the doubly page-aligned total. -/
theorem C9_witness :
    (MmapFile.with_capacity [117, 56] 1 4000).1.take
        (MmapFileHdr.new [117, 56] 4000).serialized_size
      = (MmapFileHdr.new [117, 56] 4000).serialize
    ∧ (MmapFile.with_capacity [117, 56] 1 4000).1.length
      = page_align
          (page_align (MmapFileHdr.new [117, 56] 4000).serialized_size
            + 4000 * 1) :=
  C9_create_layout [117, 56] 1 4000 (by decide)

/-- Claim C10: whenever `map` returns a view without panicking (given
non-wrapping arithmetic), the mapped region lies entirely within the file —
the file length is at least `offset + capacity * size_of::<T>()` and at most
the addressable `usize::max_value()`; and for files produced by
`with_capacity` with the same type and capacity, the out-of-bounds branch is
unreachable: the `map` call inside `with_capacity` succeeds. -/
theorem C10_map_in_bounds :
    (∀ (contents : List Nat) (offset capacity sizeT : Nat)
      (view : List Nat),
      capacity * sizeT + offset < U64 →
      MmapFile.map contents offset capacity sizeT = Outcome.ok view →
      contents.length ≤ USIZE_MAX
        ∧ offset + capacity * sizeT ≤ contents.length)
    ∧ ∀ (tn : List Nat) (sizeT capacity : Nat),
        inBounds tn sizeT capacity →
        (MmapFile.with_capacity tn sizeT capacity).2
          = Outcome.ok (List.replicate (capacity * sizeT) 0) := by
  constructor
  · intro contents offset capacity sizeT view hov h
    simp only [MmapFile.map] at h
    rw [Nat.mod_eq_of_lt (show capacity * sizeT < U64 by omega),
      Nat.mod_eq_of_lt hov] at h
    by_cases h1 : contents.length > USIZE_MAX
    · rw [if_pos h1] at h
      exact Outcome.noConfusion h
    · rw [if_neg h1] at h
      by_cases h2 : contents.length < capacity * sizeT + offset
      · rw [if_pos h2] at h
        exact Outcome.noConfusion h
      · rw [if_neg h2] at h
        exact ⟨by omega, by omega⟩
  · exact fun tn sizeT capacity hb => withCapacity_view_eq tn sizeT capacity hb

/-- Claim C10, witness: a successful `map` of one `u8` record at offset 0 of
a 2-byte file satisfies both bounds, and the `map` inside `with_capacity`
for one `u8` record succeeds. -/
theorem C10_witness :
    ((List.replicate 2 (0 : Nat)).length ≤ USIZE_MAX
      ∧ 0 + 1 * 1 ≤ (List.replicate 2 (0 : Nat)).length)
    ∧ (MmapFile.with_capacity [117, 56] 1 1).2
      = Outcome.ok (List.replicate (1 * 1) 0) :=
  ⟨C10_map_in_bounds.1 (List.replicate 2 0) 0 1 1 [0] (by decide)
      (by decide),
    C10_map_in_bounds.2 [117, 56] 1 1 (by decide)⟩
